import Mathlib

/-!
Verification development for the FAB figure-extraction repository.

The Python modules `fab/tools/extract_and_calc.py` and
`fab/agents/analysis_agent.py` are shallowly embedded here: strings become
`List Char`, Python `Decimal` values (context precision 12, default rounding
ROUND_HALF_EVEN) become `ℚ` together with an explicit rounding function, the
regular expressions used by the code become bespoke executable matchers with
the same leftmost / ordered-alternation / greedy semantics, and code that can
raise is modelled in `Except`.
-/

set_option maxHeartbeats 1600000

namespace FAB

/-! ### Character classes (the ASCII fragment exercised by the repository) -/

/-- Python `\s` on the ASCII range: space, tab, newline, carriage return,
form feed, vertical tab. -/
def isSpaceC (c : Char) : Bool :=
  c = ' ' || c = '\t' || c = '\n' || c = '\r' || c = '\x0c' || c = '\x0b'

/-- Python `\w` on the ASCII range: letters, digits and underscore. -/
def isWordC (c : Char) : Bool := c.isAlphanum || c = '_'

/-- Characters admitted by the character class `[\d,\.]` used by the
number-token pattern of `find_number_in_text` (after the leading digit). -/
def isNumBodyC (c : Char) : Bool := c.isDigit || c = ',' || c = '.'

/-- Characters admitted by the character class `[\d\.\-]` of the magnitude
pattern in the tools version of `normalize_number_str`. -/
def isNumTokC (c : Char) : Bool := c.isDigit || c = '.' || c = '-'

/-- Abbreviation turning a string literal into the character list we compute
with. -/
def cl (s : String) : List Char := s.toList

/-! ### Small string (character-list) operations -/

/-- Case-sensitive prefix test, as `List.isPrefixOf` but kept local so all
string primitives used by the embedding are defined in this file. -/
def prefixAt : List Char → List Char → Bool
  | [], _ => true
  | _ :: _, [] => false
  | p :: ps, c :: cs => p = c && prefixAt ps cs

/-- Python `s.startswith(pre)`. -/
def startsWithL (s pre : List Char) : Bool := prefixAt pre s

/-- Python `s.endswith(suf)`. -/
def endsWithL (s suf : List Char) : Bool := prefixAt suf.reverse s.reverse

/-- Python `s.strip()` (whitespace removal at both ends). -/
def stripL (s : List Char) : List Char :=
  ((s.dropWhile isSpaceC).reverse.dropWhile isSpaceC).reverse

/-- One fuel-indexed step list for Python `str.replace`: scan left to right,
replacing non-overlapping occurrences of `pat` (always nonempty in this
repository) by `rep`. The fuel is the length of the subject, which bounds the
number of steps because every step consumes at least one character. -/
def replAux (pat rep : List Char) : ℕ → List Char → List Char
  | 0, s => s
  | _ + 1, [] => []
  | fuel + 1, c :: cs =>
    if prefixAt pat (c :: cs) then rep ++ replAux pat rep fuel ((c :: cs).drop pat.length)
    else c :: replAux pat rep fuel cs

/-- Python `s.replace(pat, rep)`. -/
def pyReplace (s pat rep : List Char) : List Char := replAux pat rep s.length s

/-- Python `re.split(r"\n|\r", text)`: split at every `\n` and every `\r`. -/
def splitSep : List Char → List (List Char)
  | [] => [[]]
  | c :: cs =>
    if c = '\n' || c = '\r' then [] :: splitSep cs
    else
      match splitSep cs with
      | [] => [[c]]
      | l :: ls => (c :: l) :: ls

/-- Python `s.lower()` (ASCII usage). -/
def lowerL (s : List Char) : List Char := s.map Char.toLower

/-- Case-sensitive substring test (`pat in s`). -/
def containsSub (s pat : List Char) : Bool :=
  match s with
  | [] => prefixAt pat []
  | _ :: cs => prefixAt pat s || containsSub cs pat

/-- Case-insensitive literal prefix match against a lowercase pattern,
returning the remaining input on success. -/
def ciPrefix : List Char → List Char → Option (List Char)
  | [], s => some s
  | _ :: _, [] => none
  | p :: ps, c :: cs => if c.toLower = p then ciPrefix ps cs else none

/-- Python `re.search(kw, line, re.I)` for the literal keyword phrases used by
the repository: case-insensitive substring containment. -/
def containsCi (kw : List Char) : List Char → Bool
  | [] => (ciPrefix kw []).isSome
  | c :: cs => (ciPrefix kw (c :: cs)).isSome || containsCi kw cs

/-- Python `" ".join(ls)`. -/
def joinSpace (ls : List (List Char)) : List Char := List.intercalate [' '] ls

/-! ### The Decimal model

Python `decimal` with `getcontext().prec = 12` and the default rounding mode
ROUND_HALF_EVEN.  `Decimal` construction from a string is exact; every
arithmetic operation (including unary minus) rounds its exact result to 12
significant digits. -/

/-- The configured context precision (`getcontext().prec = 12`). -/
def PREC : ℕ := 12

/-- Round a rational to an integer, ties to even (ROUND_HALF_EVEN). -/
def rhe (q : ℚ) : ℤ :=
  let n := ⌊q⌋
  let r := q - n
  if r < 1 / 2 then n
  else if 1 / 2 < r then n + 1
  else if n % 2 = 0 then n else n + 1

/-- Round `q` keeping `PREC` significant digits, assuming its leading digit
has exponent `e` (that is, `10^e ≤ |q| < 10^(e+1)`). -/
def roundAt (e : ℤ) (q : ℚ) : ℚ :=
  (rhe (q * (10 : ℚ) ^ ((PREC : ℤ) - 1 - e)) : ℚ) * (10 : ℚ) ^ (e - ((PREC : ℤ) - 1))

/-- Round a rational to `PREC` significant digits, ties to even: the result of
any context arithmetic operation of Python `decimal` at precision 12. -/
def round12 (q : ℚ) : ℚ :=
  if q = 0 then 0 else roundAt (Int.log 10 |q|) q

/-- Context subtraction. -/
def decSub (a b : ℚ) : ℚ := round12 (a - b)

/-- Context multiplication. -/
def decMul (a b : ℚ) : ℚ := round12 (a * b)

/-- Context division (callers establish a nonzero divisor). -/
def decDiv (a b : ℚ) : ℚ := round12 (a / b)

/-- Context negation (`-val` also rounds in Python `decimal`). -/
def decNeg (a : ℚ) : ℚ := round12 (-a)

/-- Numeric value of a digit string (most significant first). -/
def decOfDigits (ds : List Char) : ℚ :=
  ds.foldl (fun a c => a * 10 + ((c.toNat : ℚ) - 48)) 0

/-- Helper for `parseDecimal`: the unsigned part of the `Decimal` string
grammar, `digits [. digits]` with at least one digit overall. -/
def parseDecCore (t : List Char) : Option ℚ :=
  let ip := t.takeWhile Char.isDigit
  let rest := t.dropWhile Char.isDigit
  match rest with
  | [] => if ip = [] then none else some (decOfDigits ip)
  | '.' :: fp =>
    if fp.all Char.isDigit && (!ip.isEmpty || !fp.isEmpty) then
      some (decOfDigits ip + decOfDigits fp / (10 : ℚ) ^ fp.length)
    else none
  | _ => none

/-- Python `Decimal(s)` for the strings this repository feeds it (no exponent
forms, no surrounding whitespace, which the regex captures cannot contain):
`none` models the `InvalidOperation` exception, construction is exact. -/
def parseDecimal : List Char → Option ℚ
  | '-' :: t => (parseDecCore t).map Neg.neg
  | t => parseDecCore t

/-! ### Regular-expression matchers

Each Python pattern of the repository is embedded as an anchored attempt
(`...At`) plus the generic leftmost scan `scanSearch`, reproducing the
backtracking behaviour of `re`: ordered alternation, greedy quantifiers.  In
every pattern below the greedy character-class runs are followed only by
characters outside the class, so the maximal run is the unique possible one
and no run ever needs to be shrunk on failure; the only real backtracking
(tried alternatives) is written out explicitly. -/

/-- Leftmost search: try the anchored pattern at every position. -/
def scanSearch {α : Type} (p : List Char → Option α) : List Char → Option α
  | [] => p []
  | c :: cs =>
    match p (c :: cs) with
    | some r => some r
    | none => scanSearch p cs

/-- Leftmost search for patterns that inspect a word boundary on their left:
the previous character is threaded through. -/
def scanPrev {α : Type} (p : Option Char → List Char → Option α) :
    Option Char → List Char → Option α
  | prev, [] => p prev []
  | prev, c :: cs =>
    match p prev (c :: cs) with
    | some r => some r
    | none => scanPrev p (some c) cs

/-- The magnitude words, in the alternation order of the patterns
`(bn|billion|m|million|k|thousand)`. -/
def unitsList : List (List Char) := [cl "bn", cl "billion", cl "m", cl "million", cl "k", cl "thousand"]

/-- Word boundary after a unit word: end of input or a non-word character. -/
def atWordEnd : List Char → Bool
  | [] => true
  | c :: _ => !isWordC c

/-- Ordered, case-insensitive unit alternation followed by `\b`.  When a
branch matches but the boundary fails (for example `m` inside `million`), the
next branch is tried, exactly as `re` backtracks.  Returns the lowercase unit
word; the Python code immediately lowercases the capture, so this is the value
it goes on to use. -/
def matchUnitB : List (List Char) → List Char → Option (List Char)
  | [], _ => none
  | u :: us, s =>
    match ciPrefix u s with
    | some rest => if atWordEnd rest then some u else matchUnitB us s
    | none => matchUnitB us s

/-- Ordered, case-insensitive unit alternation with no trailing boundary (the
`find_number_in_text` token pattern).  Returns (original slice, rest). -/
def matchUnitNoB : List (List Char) → List Char → Option (List Char × List Char)
  | [], _ => none
  | u :: us, s =>
    match ciPrefix u s with
    | some rest => some (s.take u.length, rest)
    | none => matchUnitNoB us s

/-- Anchored attempt of `(?i)([\d\.\-]+)\s*(bn|billion|m|million|k|thousand)\b`
(tools `normalize_number_str`): returns (group 1, lowercased group 2). -/
def toolsMagAt (s : List Char) : Option (List Char × List Char) :=
  let num := s.takeWhile isNumTokC
  if num.isEmpty then none
  else
    let r := (s.dropWhile isNumTokC).dropWhile isSpaceC
    match matchUnitB unitsList r with
    | some u => some (num, u)
    | none => none

/-- The greedily-tried `(\.\d+)?` continuation of the agents magnitude
pattern: a dot, one or more digits, then `\s*` and the unit with `\b`.  On
success the capture is the full group 1 `sgn ++ ds ++ . ++ fs`. -/
def agentsMagFrac (sgn ds t1 : List Char) : Option (List Char × List Char) :=
  if t1.head? = some '.' then
    let fs := t1.tail.takeWhile Char.isDigit
    if fs.isEmpty then none
    else
      match matchUnitB unitsList ((t1.tail.dropWhile Char.isDigit).dropWhile isSpaceC) with
      | some u => some (sgn ++ ds ++ '.' :: fs, u)
      | none => none
  else none

/-- Shared remainder of the agents magnitude attempt once the optional sign
has been consumed: `\d+`, then the fractional continuation greedily, else
directly `\s*` and the unit. -/
def agentsMagCore (sgn t : List Char) : Option (List Char × List Char) :=
  let ds := t.takeWhile Char.isDigit
  if ds.isEmpty then none
  else
    match agentsMagFrac sgn ds (t.dropWhile Char.isDigit) with
    | some r => some r
    | none =>
      match matchUnitB unitsList ((t.dropWhile Char.isDigit).dropWhile isSpaceC) with
      | some u => some (sgn ++ ds, u)
      | none => none

/-- Anchored attempt of
`(?i)(-?\d+(\.\d+)?)\s*(bn|billion|m|million|k|thousand)\b`
(agents `normalize_number_str`): returns (group 1, lowercased group 3).  The
optional `-?` consumes a leading minus when present; skipping a present minus
cannot help, because `\d+` then fails on it at the same position. -/
def agentsMagAt : List Char → Option (List Char × List Char)
  | '-' :: t => agentsMagCore ['-'] t
  | t => agentsMagCore [] t

/-- Greedy `(?:,\d{3})*`, fuel-indexed by the input length. -/
def commaGroups : ℕ → List Char → List Char × List Char
  | 0, s => ([], s)
  | fuel + 1, s =>
    match s with
    | ',' :: a :: b :: c :: r =>
      if a.isDigit && b.isDigit && c.isDigit then
        let (grp, rest) := commaGroups fuel r
        (',' :: a :: b :: c :: grp, rest)
      else ([], s)
    | _ => ([], s)

/-- Greedy `(?:\.\d+)?`: consumed characters and rest. -/
def fracOpt : List Char → List Char × List Char
  | '.' :: r =>
    let fs := r.takeWhile Char.isDigit
    if fs.isEmpty then ([], '.' :: r) else ('.' :: fs, r.dropWhile Char.isDigit)
  | s => ([], s)

/-- Anchored attempt of the tools fallback pattern
`(-?\d{1,3}(?:,\d{3})*(?:\.\d+)?|-?\d+\.\d+|-?\d+)`.  The first branch
succeeds whenever an optional sign is followed by a digit, and the other two
branches require the same start, so the attempt reduces to the first branch;
note `\d{1,3}` takes at most three digits and nothing later forces more. -/
def toolsNumAt (s : List Char) : Option (List Char) :=
  let sgn : List Char := if s.take 1 = ['-'] then ['-'] else []
  let t := s.drop sgn.length
  let ds := t.takeWhile Char.isDigit
  if ds.isEmpty then none
  else
    let d3 := ds.take 3
    let t1 := t.drop d3.length
    let (grps, t2) := commaGroups t1.length t1
    let (fr, _) := fracOpt t2
    some (sgn ++ d3 ++ grps ++ fr)

/-- Anchored attempt of the agents fallback pattern `-?\d+(\.\d+)?`. -/
def agentsNumAt (s : List Char) : Option (List Char) :=
  let sgn : List Char := if s.take 1 = ['-'] then ['-'] else []
  let t := s.drop sgn.length
  let ds := t.takeWhile Char.isDigit
  if ds.isEmpty then none
  else
    let (fr, _) := fracOpt (t.dropWhile Char.isDigit)
    some (sgn ++ ds ++ fr)

/-- Anchored attempt of the number-token pattern of `find_number_in_text`,
`\(?-?\d[\d,\.]*(?:\s*(?:bn|billion|m|million|k|thousand))?\)?` with
`re.IGNORECASE`: returns (matched slice, rest after the match).  The optional
opening parenthesis and sign cannot help by being skipped (without them the
same character fails `\d`), the digit run is maximal, the optional magnitude
group consumes `\s*` plus the first unit alternative that matches (no
trailing boundary, so `m` wins inside `million`), and a closing parenthesis
is taken if present right after. -/
def numTokenAt (s : List Char) : Option (List Char × List Char) :=
  let par : List Char := if s.take 1 = ['('] then ['('] else []
  let t := s.drop par.length
  let sgn : List Char := if t.take 1 = ['-'] then ['-'] else []
  let t1 := t.drop sgn.length
  match t1 with
  | c :: t2 =>
    if c.isDigit then
      let run := t2.takeWhile isNumBodyC
      let t3 := t2.dropWhile isNumBodyC
      let ws := t3.takeWhile isSpaceC
      let t4 := t3.dropWhile isSpaceC
      let (mag, t5) :=
        match matchUnitNoB unitsList t4 with
        | some (orig, rest) => (ws ++ orig, rest)
        | none => (([] : List Char), t3)
      let (rp, t6) :=
        if t5.head? = some ')' then (([')'] : List Char), t5.tail)
        else (([] : List Char), t5)
      some (par ++ sgn ++ c :: run ++ mag ++ rp, t6)
    else none
  | [] => none

/-- Python `re.findall` for the number-token pattern: non-overlapping
leftmost matches, resuming after each match (every match is nonempty, so the
input length is enough fuel). -/
def findAllAux : ℕ → List Char → List (List Char)
  | 0, _ => []
  | _ + 1, [] => []
  | fuel + 1, c :: cs =>
    match numTokenAt (c :: cs) with
    | some (m, rest) => m :: findAllAux fuel rest
    | none => findAllAux fuel cs

/-- All number tokens of a text, in order. -/
def reFindAllNums (s : List Char) : List (List Char) := findAllAux s.length s

/-! ### The Number Normalizers

Two implementations exist in the repository; both are embedded.  The domain
is `Option (List Char)`: a Python string or `None`. -/

/-- Multiplier dispatch of the tools version: `unit.startswith("b"/"m"/"k"/"t")`
on the lowercased capture. -/
def toolsMultiplier (unit : List Char) : ℚ :=
  if startsWithL unit ['b'] then 1000000000
  else if startsWithL unit ['m'] then 1000000
  else if startsWithL unit ['k'] || startsWithL unit ['t'] then 1000
  else 1

/-- Multiplier dispatch of the agents version.  The source uses three separate
`if` statements instead of an `elif` chain; the guards are mutually exclusive
(a word starts with at most one of `b`, `m`, `k`/`t`), so the chain below is
extensionally the same assignment sequence. -/
def agentsMultiplier (unit : List Char) : ℚ :=
  if startsWithL unit ['b'] then 1000000000
  else if startsWithL unit ['m'] then 1000000
  else if startsWithL unit ['k'] || startsWithL unit ['t'] then 1000
  else 1

/-- Shared by both normalizers: detect the accounting parentheses and produce
the stripped inner string (`s[1:-1].strip()` when wrapped). -/
def parenSplit (s1 : List Char) : Bool × List Char :=
  let p := startsWithL s1 ['('] && endsWithL s1 [')']
  (p, if p then stripL ((s1.drop 1).dropLast) else s1)

/-- Symbol removal shared by both normalizers:
`s.replace(",", "").replace("$", "").replace("AED", "").replace("US$", "")`. -/
def removeSymbols (s : List Char) : List Char :=
  pyReplace (pyReplace (pyReplace (pyReplace s (cl ",") []) (cl "$") []) (cl "AED") []) (cl "US$") []

/-- Magnitude branch of the tools `normalize_number_str`: the `try/except`
around `Decimal(num) * multiplier` degrades to `None`. -/
def toolsMagBranch (negative : Bool) (num unit : List Char) : Option ℚ :=
  match parseDecimal num with
  | none => none
  | some v =>
    let val := decMul v (toolsMultiplier unit)
    some (if negative then decNeg val else val)

/-- Fallback branch of the tools `normalize_number_str`: the `m2` search over
`s.replace(",", "")` (commas are already gone, so the replace is inert), with
its own `try/except`. -/
def toolsM2Branch (negative : Bool) (s4 : List Char) : Option ℚ :=
  match scanSearch toolsNumAt (pyReplace s4 (cl ",") []) with
  | some num =>
    match parseDecimal num with
    | none => none
    | some v => some (if negative then decNeg v else v)
  | none => none

/-- Body of the tools `normalize_number_str` after the parenthesis handling:
symbol removal, dash normalization, then the magnitude search with the `m2`
fallback. -/
def toolsAfterParen (negative : Bool) (s2 : List Char) : Option ℚ :=
  let s3 := removeSymbols s2
  let s4 := pyReplace (pyReplace s3 (cl "—") (cl "-")) (cl "–") (cl "-")
  match scanSearch toolsMagAt s4 with
  | some (num, unit) => toolsMagBranch negative num unit
  | none => toolsM2Branch negative s4

/-- The tools `normalize_number_str` (fab/tools/extract_and_calc.py),
assembled from the stages above in source order.  All failure paths return
`none` (the falsy/non-string guard and the two `try/except` blocks), so this
version is total. -/
def normalize_number_str_tools (s : Option (List Char)) : Option ℚ :=
  match s with
  | none => none
  | some s0 =>
    if s0.isEmpty then none
    else
      let s1 := stripL s0
      let (negative, s2) := parenSplit s1
      toolsAfterParen negative s2

/-- Magnitude branch of the agents `normalize_number_str`: no `try/except`,
so a `Decimal` failure escapes as an exception. -/
def agentsMagBranch (negative : Bool) (num unit : List Char) : Except Unit (Option ℚ) :=
  match parseDecimal num with
  | none => .error ()
  | some v =>
    let val := decMul v (agentsMultiplier unit)
    .ok (some (if negative then decNeg val else val))

/-- Fallback branch of the agents `normalize_number_str`. -/
def agentsM2Branch (negative : Bool) (s3 : List Char) : Except Unit (Option ℚ) :=
  match scanSearch agentsNumAt (pyReplace s3 (cl ",") []) with
  | some num =>
    match parseDecimal num with
    | none => .error ()
    | some v => .ok (some (if negative then decNeg v else v))
  | none => .ok none

/-- Body of the agents `normalize_number_str` after the parenthesis handling. -/
def agentsAfterParen (negative : Bool) (s2 : List Char) : Except Unit (Option ℚ) :=
  let s3 := removeSymbols s2
  match scanSearch agentsMagAt s3 with
  | some (num, unit) => agentsMagBranch negative num unit
  | none => agentsM2Branch negative s3

/-- The agents `normalize_number_str` (fab/agents/analysis_agent.py).  This
version has no `try/except` and lacks the em/en-dash normalization of the
tools version. -/
def normalize_number_str_agents (s : Option (List Char)) : Except Unit (Option ℚ) :=
  match s with
  | none => .ok none
  | some s0 =>
    let s1 := stripL s0
    let (negative, s2) := parenSplit s1
    agentsAfterParen negative s2

/-! ### The Keyword-Windowed Extractors -/

/-- The dictionary built by `find_number_in_text`.  The global-fallback result
carries no `"line_index"` key, hence the `Option`. -/
structure Extract where
  value : ℚ
  matched : List Char
  ctx : List Char
  lineIdx : Option ℕ
deriving DecidableEq, Repr

/-- Keyword loop of one line: `for kw in keywords: if re.search(kw, line, re.I)`.
The loop body does not depend on which keyword matched, so a hit by any
keyword is what determines the behaviour. -/
def anyKw (kws : List (List Char)) (line : List Char) : Bool :=
  kws.any (fun kw => containsCi kw line)

/-- Default keywords of the tools `find_number_in_text`. -/
def toolsDefaultKeywords : List (List Char) :=
  [cl "net profit", cl "net income", cl "profit for the period", cl "profit for the year"]

/-- Default keywords of the agents `find_number_in_text`. -/
def agentsDefaultKeywords : List (List Char) :=
  [cl "net profit", cl "net income", cl "profit for the period", cl "profit for the year",
   cl "profit attributable to owners", cl "profit after tax"]

/-- Tools: `for nm in num_matches: val = normalize_number_str(nm); if val is
not None: return ...` — the first token that normalizes. -/
def firstParseTools : List (List Char) → Option (List Char × ℚ)
  | [] => none
  | nm :: rest =>
    match normalize_number_str_tools (some nm) with
    | none => firstParseTools rest
    | some v => some (nm, v)

/-- Agents: same loop, but a normalization exception propagates. -/
def firstParseAgents : List (List Char) → Except Unit (Option (List Char × ℚ))
  | [] => .ok none
  | nm :: rest =>
    match normalize_number_str_agents (some nm) with
    | .error e => .error e
    | .ok none => firstParseAgents rest
    | .ok (some v) => .ok (some (nm, v))

/-- Line loop of the tools `find_number_in_text`: the window is the matching
line plus the next two lines, joined with a space. -/
def toolsKwScan (kws : List (List Char)) : List (List Char) → ℕ → Option Extract
  | [], _ => none
  | line :: rest, i =>
    if anyKw kws line then
      let window := joinSpace ((line :: rest).take 3)
      match firstParseTools (reFindAllNums window) with
      | some (nm, v) => some ⟨v, nm, stripL window, some i⟩
      | none => toolsKwScan kws rest (i + 1)
    else toolsKwScan kws rest (i + 1)

/-- The tools `find_number_in_text` (fab/tools/extract_and_calc.py). -/
def find_number_in_text_tools (text : List Char) (keywords : Option (List (List Char))) :
    Option Extract :=
  let kws := keywords.getD toolsDefaultKeywords
  match toolsKwScan kws (splitSep text) 0 with
  | some r => some r
  | none =>
    match firstParseTools (reFindAllNums text) with
    | some (nm, v) => some ⟨v, nm, text.take 300, none⟩
    | none => none

/-- Line loop of the agents `find_number_in_text`. -/
def agentsKwScan (kws : List (List Char)) : List (List Char) → ℕ → Except Unit (Option Extract)
  | [], _ => .ok none
  | line :: rest, i =>
    if anyKw kws line then
      let window := joinSpace ((line :: rest).take 3)
      match firstParseAgents (reFindAllNums window) with
      | .error e => .error e
      | .ok (some (nm, v)) => .ok (some ⟨v, nm, stripL window, some i⟩)
      | .ok none => agentsKwScan kws rest (i + 1)
    else agentsKwScan kws rest (i + 1)

/-- The agents `find_number_in_text` (fab/agents/analysis_agent.py). -/
def find_number_in_text_agents (text : List Char) (keywords : Option (List (List Char))) :
    Except Unit (Option Extract) :=
  let kws := keywords.getD agentsDefaultKeywords
  match agentsKwScan kws (splitSep text) 0 with
  | .error e => .error e
  | .ok (some r) => .ok (some r)
  | .ok none =>
    match firstParseAgents (reFindAllNums text) with
    | .error e => .error e
    | .ok (some (nm, v)) => .ok (some ⟨v, nm, text.take 300, none⟩)
    | .ok none => .ok none

/-! ### The Candidate Selector -/

/-- One entry of the `results` list consumed by `choose_best_extract`; only
the `"extract"` field takes part in selection (the remaining dictionary
fields ride along unchanged), plus the `"source"` field to keep candidates
distinguishable. -/
structure Candidate where
  src : List Char
  extract : Option Extract
deriving DecidableEq, Repr

/-- Score of an extraction: its line index when present, else the 1000
sentinel. -/
def scoreOf (e : Extract) : ℕ :=
  match e.lineIdx with
  | some li => li
  | none => 1000

/-- Loop body of `choose_best_extract`: skip absent extracts, keep the
strictly better (strictly smaller score) candidate. -/
def chooseStep (best : Option (ℕ × Candidate)) (r : Candidate) : Option (ℕ × Candidate) :=
  match r.extract with
  | none => best
  | some e =>
    let score := scoreOf e
    match best with
    | none => some (score, r)
    | some (bs, br) => if score < bs then some (score, r) else some (bs, br)

/-- Accumulator loop of `choose_best_extract`. -/
def chooseBestAux : Option (ℕ × Candidate) → List Candidate → Option (ℕ × Candidate)
  | best, [] => best
  | best, r :: rest => chooseBestAux (chooseStep best r) rest

/-- `choose_best_extract` from the driver block of extract_and_calc.py. -/
def choose_best_extract (results : List Candidate) : Option Candidate :=
  (chooseBestAux none results).map Prod.snd

/-! ### The Comparators -/

/-- `calc_pct_change` in fab/agents/analysis_agent.py: explicit `None` guards
and a `try/except` make it total. -/
def calc_pct_change_agents (old new : Option ℚ) : Option ℚ :=
  match old, new with
  | none, _ => none
  | _, none => none
  | some o, some n => if o = 0 then none else some (decMul (decDiv (decSub n o) o) 100)

/-! ### The Source Metadata Inferencer -/

/-- Result of `infer_year_quarter_from_source`. -/
structure YearQuarter where
  year : Option ℕ
  quarter : Option (List Char)
deriving DecidableEq, Repr

/-- Anchored attempt of `(20\d{2})`, returning `int(m.group(1))`. -/
def yearAt : List Char → Option ℕ
  | '2' :: '0' :: c :: d :: _ =>
    if c.isDigit && d.isDigit then some (2000 + 10 * (c.toNat - 48) + (d.toNat - 48)) else none
  | _ => none

/-- Anchored attempt of `\bq([1-4])\b` with `re.IGNORECASE`: the previous
character (if any) must be a non-word character, then `q`/`Q`, then a digit
`1`-`4`, then end of input or a non-word character.  Returns the digit. -/
def quarterAt (prev : Option Char) : List Char → Option Char
  | q :: d :: rest =>
    let prevOk := match prev with | none => true | some c => !isWordC c
    let afterOk := match rest with | [] => true | c :: _ => !isWordC c
    if prevOk && q.toLower = 'q' && ('1' ≤ d && d ≤ '4') && afterOk then some d else none
  | _ => none

/-- The month-name table of `infer_year_quarter_from_source`, in insertion
(iteration) order. -/
def monthsTable : List (List Char × List Char) :=
  [(cl "march", cl "Q1"), (cl "mar", cl "Q1"),
   (cl "june", cl "Q2"), (cl "jun", cl "Q2"),
   (cl "sept", cl "Q3"), (cl "september", cl "Q3"), (cl "sep", cl "Q3"),
   (cl "december", cl "Q4"), (cl "dec", cl "Q4")]

/-- `for mon, qv in months.items(): if mon in lower: q = qv; break`. -/
def monthLookup : List (List Char × List Char) → List Char → Option (List Char)
  | [], _ => none
  | (mon, qv) :: rest, lower => if containsSub lower mon then some qv else monthLookup rest lower

/-- `infer_year_quarter_from_source` (fab/tools/extract_and_calc.py).  The
year is searched in the lowercased source, the quarter token in the original
source (with `re.I`), and `f"Q{int(...)}"` renders the digit back. -/
def infer_year_quarter_from_source (src : List Char) : YearQuarter :=
  let lower := lowerL src
  let yr := scanSearch yearAt lower
  let q :=
    match scanPrev quarterAt none src with
    | some d => some ['Q', d]
    | none => monthLookup monthsTable lower
  ⟨yr, q⟩

/-! ### Evaluation lemmas for the rounding model

`Int.log` is not kernel-evaluable, so concrete `round12` values are obtained
by certifying the exponent through the characteristic bounds and then letting
the kernel evaluate `roundAt`. -/

theorem intLog10_eq {q : ℚ} {e : ℤ} (hq : 0 < q)
    (h1 : (10 : ℚ) ^ e ≤ q) (h2 : q < (10 : ℚ) ^ (e + 1)) : Int.log 10 q = e := by
  have h10 : (1 : ℚ) < 10 := by norm_num
  have l1 : (10 : ℚ) ^ Int.log 10 q ≤ q := by
    have := Int.zpow_log_le_self (b := 10) (R := ℚ) (by norm_num) hq
    push_cast at this
    exact this
  have l2 : q < (10 : ℚ) ^ (Int.log 10 q + 1) := by
    have := Int.lt_zpow_succ_log_self (b := 10) (R := ℚ) (by norm_num) q
    push_cast at this
    exact this
  have k1 : Int.log 10 q < e + 1 := (zpow_lt_zpow_iff_right₀ h10).mp (lt_of_le_of_lt l1 h2)
  have k2 : e < Int.log 10 q + 1 := (zpow_lt_zpow_iff_right₀ h10).mp (lt_of_le_of_lt h1 l2)
  omega

theorem round12_eq_roundAt {q : ℚ} {e : ℤ} (hq : q ≠ 0)
    (h1 : (10 : ℚ) ^ e ≤ |q|) (h2 : |q| < (10 : ℚ) ^ (e + 1)) :
    round12 q = roundAt e q := by
  rw [round12, if_neg hq, intLog10_eq (abs_pos.mpr hq) h1 h2]


theorem rhe_intCast (m : ℤ) : rhe (m : ℚ) = m := by
  rw [rhe]
  simp only [Int.floor_intCast, sub_self]
  norm_num

theorem PREC_exp₁ (e : ℤ) : (PREC : ℤ) - 1 - e = 11 - e := by norm_num [PREC]

theorem PREC_exp₂ (e : ℤ) : e - ((PREC : ℤ) - 1) = e - 11 := by norm_num [PREC]

theorem roundAt_exact {q : ℚ} (e m : ℤ) (hm : q * (10 : ℚ) ^ (11 - e) = (m : ℚ)) :
    roundAt e q = q := by
  rw [roundAt, PREC_exp₁, PREC_exp₂, hm, rhe_intCast, ← hm, mul_assoc,
    ← zpow_add₀ (by norm_num : (10 : ℚ) ≠ 0)]
  norm_num

/-- A value that needs at most 12 significant digits is a fixed point of the
context rounding. -/
theorem round12_exact {q : ℚ} (e m : ℤ) (hq : q ≠ 0)
    (h1 : (10 : ℚ) ^ e ≤ |q|) (h2 : |q| < (10 : ℚ) ^ (e + 1))
    (hm : q * (10 : ℚ) ^ (11 - e) = (m : ℚ)) : round12 q = q := by
  rw [round12_eq_roundAt hq h1 h2, roundAt_exact e m hm]

theorem round12_exact_pos {q : ℚ} (e m : ℤ) (h0 : 0 < q)
    (h1 : (10 : ℚ) ^ e ≤ q) (h2 : q < (10 : ℚ) ^ (e + 1))
    (hm : q * (10 : ℚ) ^ (11 - e) = (m : ℚ)) : round12 q = q :=
  round12_exact e m h0.ne' (by rwa [abs_of_pos h0]) (by rwa [abs_of_pos h0]) hm

theorem round12_exact_neg {q : ℚ} (e m : ℤ) (h0 : q < 0)
    (h1 : (10 : ℚ) ^ e ≤ -q) (h2 : -q < (10 : ℚ) ^ (e + 1))
    (hm : q * (10 : ℚ) ^ (11 - e) = (m : ℚ)) : round12 q = q :=
  round12_exact e m h0.ne (by rwa [abs_of_neg h0]) (by rwa [abs_of_neg h0]) hm

theorem prefixAt_self_append : ∀ (p r : List Char), prefixAt p (p ++ r) = true
  | [], _ => rfl
  | a :: as, r => by
    rw [List.cons_append, prefixAt]
    simp [prefixAt_self_append as r]

theorem prefixAt_exists : ∀ {p s : List Char}, prefixAt p s = true → ∃ r, s = p ++ r
  | [], s, _ => ⟨s, rfl⟩
  | a :: as, [], h => by simp [prefixAt] at h
  | a :: as, c :: cs, h => by
    rw [prefixAt, Bool.and_eq_true, decide_eq_true_eq] at h
    obtain ⟨r, hr⟩ := prefixAt_exists h.2
    exact ⟨r, by rw [List.cons_append, ← hr, h.1]⟩

theorem scanSearch_cons_some {α : Type} (p : List Char → Option α) {c : Char} {cs : List Char}
    {r : α} (h : p (c :: cs) = some r) : scanSearch p (c :: cs) = some r := by
  simp [scanSearch, h]

theorem scanSearch_cons_none {α : Type} (p : List Char → Option α) {c : Char} {cs : List Char}
    (h : p (c :: cs) = none) : scanSearch p (c :: cs) = scanSearch p cs := by
  simp [scanSearch, h]

theorem scanSearch_none {α : Type} (p : List Char → Option α) :
    ∀ {s : List Char}, (∀ i, p (s.drop i) = none) → scanSearch p s = none
  | [], h => by
    rw [scanSearch]
    exact h 0
  | c :: cs, h => by
    rw [scanSearch_cons_none p (by simpa using h 0)]
    exact scanSearch_none p (fun i => by simpa using h (i + 1))

/-- Full characterization of `re.search`: the match comes from the first
position whose anchored attempt succeeds. -/
theorem scanSearch_eq_some_iff {α : Type} (p : List Char → Option α) :
    ∀ (s : List Char) (r : α),
      scanSearch p s = some r ↔
        ∃ i, i ≤ s.length ∧ p (s.drop i) = some r ∧ ∀ j, j < i → p (s.drop j) = none
  | [], r => by
    rw [scanSearch]
    constructor
    · intro h
      exact ⟨0, Nat.le_refl _, h, fun j hj => absurd hj (Nat.not_lt_zero j)⟩
    · rintro ⟨i, _, hp, hmin⟩
      rcases Nat.eq_zero_or_pos i with rfl | hpos
      · exact hp
      · have h0 := hmin 0 hpos
        simp only [List.drop_nil] at h0 hp
        rw [h0] at hp
        exact absurd hp (by simp)
  | c :: cs, r => by
    cases hp : p (c :: cs) with
    | some x =>
      rw [scanSearch_cons_some p hp]
      constructor
      · intro h
        exact ⟨0, Nat.zero_le _, by rw [List.drop_zero, hp, h],
          fun j hj => absurd hj (Nat.not_lt_zero j)⟩
      · rintro ⟨i, _, hpi, hmin⟩
        rcases Nat.eq_zero_or_pos i with rfl | hpos
        · rw [List.drop_zero, hp] at hpi
          exact hpi
        · have h0 := hmin 0 hpos
          rw [List.drop_zero, hp] at h0
          exact absurd h0 (by simp)
    | none =>
      rw [scanSearch_cons_none p hp, scanSearch_eq_some_iff p cs r]
      constructor
      · rintro ⟨i, hi, hpi, hmin⟩
        refine ⟨i + 1, by simpa using Nat.succ_le_succ hi, by simpa using hpi, ?_⟩
        intro j hj
        cases j with
        | zero => simpa using hp
        | succ j' => simpa using hmin j' (Nat.lt_of_succ_lt_succ hj)
      · rintro ⟨i, hi, hpi, hmin⟩
        cases i with
        | zero =>
          rw [List.drop_zero, hp] at hpi
          exact absurd hpi (by simp)
        | succ i' =>
          refine ⟨i', by simpa using Nat.le_of_succ_le_succ hi, by simpa using hpi, ?_⟩
          intro j hj
          have hj' := hmin (j + 1) (Nat.succ_lt_succ hj)
          simpa using hj'

theorem scanPrev_cons_some {α : Type} (p : Option Char → List Char → Option α)
    {prev : Option Char} {c : Char} {cs : List Char} {r : α}
    (h : p prev (c :: cs) = some r) : scanPrev p prev (c :: cs) = some r := by
  simp [scanPrev, h]

theorem scanPrev_cons_none {α : Type} (p : Option Char → List Char → Option α)
    {prev : Option Char} {c : Char} {cs : List Char}
    (h : p prev (c :: cs) = none) : scanPrev p prev (c :: cs) = scanPrev p (some c) cs := by
  simp [scanPrev, h]

/-! ### The magnitude-string grammar of the specification

An optionally parenthesized, optionally signed decimal literal followed by a
magnitude word: `litRender` renders the literal (digit-led integer part that
may contain thousands commas, optional dot-led fractional digits), `magRender`
the whole string. -/

theorem parseDecimal_cons_not_neg {c : Char} (rest : List Char) (h : c ≠ '-') :
    parseDecimal (c :: rest) = parseDecCore (c :: rest) := by
  rw [parseDecimal.eq_def]
  split
  · next t heq =>
    rw [List.cons.injEq] at heq
    exact absurd heq.1 h
  · rfl

theorem normalize_tools_step {s0 : List Char} (hE : s0.isEmpty = false) :
    normalize_number_str_tools (some s0) =
      toolsAfterParen (parenSplit (stripL s0)).1 (parenSplit (stripL s0)).2 := by
  rw [normalize_number_str_tools, hE]
  simp only [Bool.false_eq_true, if_false]

theorem normalize_agents_step (s0 : List Char) :
    normalize_number_str_agents (some s0) =
      agentsAfterParen (parenSplit (stripL s0)).1 (parenSplit (stripL s0)).2 := by
  rw [normalize_number_str_agents]

theorem frac_ok_none : ∀ fs', (none : Option (List Char)) = some fs' →
    fs' ≠ [] ∧ ∀ c ∈ fs', c.isDigit = true := by
  intro fs' he
  exact absurd he (by simp)

/-! ### Claim C1 -/

theorem toolsMagBranch_some (num u : List Char) (v : ℚ)
    (hp : parseDecimal num = some v) :
    toolsMagBranch false num u = some (decMul v (toolsMultiplier u)) := by
  rw [toolsMagBranch, hp]
  show some (if false = true then decNeg (decMul v (toolsMultiplier u))
    else decMul v (toolsMultiplier u)) = _
  rw [if_neg (by decide : ¬ (false = true))]

theorem agentsMagBranch_some (num u : List Char) (v : ℚ)
    (hp : parseDecimal num = some v) :
    agentsMagBranch false num u = .ok (some (decMul v (agentsMultiplier u))) := by
  rw [agentsMagBranch, hp]
  show Except.ok (some (if false = true then decNeg (decMul v (agentsMultiplier u))
    else decMul v (agentsMultiplier u))) = _
  rw [if_neg (by decide : ¬ (false = true))]

/-- Helper: the agents comparator at two present operands with a nonzero old
value. -/
theorem calc_agents_some_some (o n : ℚ) (ho : o = 0 → False) :
    calc_pct_change_agents (some o) (some n) =
      some (decMul (decDiv (decSub n o) o) 100) := by
  rw [calc_pct_change_agents]
  show (if o = 0 then none else some (decMul (decDiv (decSub n o) o) 100)) = _
  rw [if_neg ho]

theorem pd_1 : parseDecimal (cl "1") = some 1 := by
  show parseDecimal ('1' :: []) = some 1
  rw [parseDecimal_cons_not_neg _ (by decide), parseDecCore]
  simp +decide [decOfDigits, cl, List.foldl, List.takeWhile, List.dropWhile]
  norm_num

theorem pd_5 : parseDecimal (cl "5") = some 5 := by
  show parseDecimal ('5' :: []) = some 5
  rw [parseDecimal_cons_not_neg _ (by decide), parseDecCore]
  simp +decide [decOfDigits, cl, List.foldl, List.takeWhile, List.dropWhile]
  norm_num

theorem pd_123 : parseDecimal (cl "123") = some 123 := by
  show parseDecimal ('1' :: cl "23") = some 123
  rw [parseDecimal_cons_not_neg _ (by decide), parseDecCore]
  simp +decide [decOfDigits, cl, List.foldl, List.takeWhile, List.dropWhile]
  norm_num

theorem pd_500 : parseDecimal (cl "500") = some 500 := by
  show parseDecimal ('5' :: cl "00") = some 500
  rw [parseDecimal_cons_not_neg _ (by decide), parseDecCore]
  simp +decide [decOfDigits, cl, List.foldl, List.takeWhile, List.dropWhile]
  norm_num

theorem pd_750 : parseDecimal (cl "750") = some 750 := by
  show parseDecimal ('7' :: cl "50") = some 750
  rw [parseDecimal_cons_not_neg _ (by decide), parseDecCore]
  simp +decide [decOfDigits, cl, List.foldl, List.takeWhile, List.dropWhile]
  norm_num

theorem pd_7895 : parseDecimal (cl "7895") = some 7895 := by
  show parseDecimal ('7' :: cl "895") = some 7895
  rw [parseDecimal_cons_not_neg _ (by decide), parseDecCore]
  simp +decide [decOfDigits, cl, List.foldl, List.takeWhile, List.dropWhile]
  norm_num

/-- The agents fallback branch on a scan hit, unparenthesized case. -/
theorem agentsM2Branch_some_false (s3 num : List Char) (v : ℚ)
    (hscan : scanSearch agentsNumAt (pyReplace s3 (cl ",") []) = some num)
    (hp : parseDecimal num = some v) :
    agentsM2Branch false s3 = .ok (some v) := by
  rw [agentsM2Branch, hscan]
  show (match parseDecimal num with
    | none => Except.error ()
    | some v => Except.ok (some (if false = true then decNeg v else v))) = _
  rw [hp]
  show Except.ok (some (if false = true then decNeg v else v)) = _
  rw [if_neg (by decide : ¬ (false = true))]

/-- The agents fallback branch on a scan hit, parenthesized case. -/
theorem agentsM2Branch_some_true (s3 num : List Char) (v : ℚ)
    (hscan : scanSearch agentsNumAt (pyReplace s3 (cl ",") []) = some num)
    (hp : parseDecimal num = some v) :
    agentsM2Branch true s3 = .ok (some (decNeg v)) := by
  rw [agentsM2Branch, hscan]
  show (match parseDecimal num with
    | none => Except.error ()
    | some v => Except.ok (some (if true = true then decNeg v else v))) = _
  rw [hp]
  show Except.ok (some (if true = true then decNeg v else v)) = _
  rw [if_pos rfl]

/-- The tools fallback branch on a scan hit, unparenthesized case. -/
theorem toolsM2Branch_some_false (s4 num : List Char) (v : ℚ)
    (hscan : scanSearch toolsNumAt (pyReplace s4 (cl ",") []) = some num)
    (hp : parseDecimal num = some v) :
    toolsM2Branch false s4 = some v := by
  rw [toolsM2Branch, hscan]
  show (match parseDecimal num with
    | none => none
    | some v => some (if false = true then decNeg v else v)) = _
  rw [hp]
  show some (if false = true then decNeg v else v) = _
  rw [if_neg (by decide : ¬ (false = true))]

theorem norm_agents_paren500 :
    normalize_number_str_agents (some (cl "(500)")) = .ok (some (-500)) := by
  rw [normalize_agents_step,
    show stripL (cl "(500)") = cl "(500)" from by decide,
    show parenSplit (cl "(500)") = (true, cl "500") from by decide]
  show agentsAfterParen true (cl "500") = _
  simp only [agentsAfterParen]
  rw [show removeSymbols (cl "500") = cl "500" from by decide,
    show scanSearch agentsMagAt (cl "500") = none from by decide]
  show agentsM2Branch true (cl "500") = _
  rw [agentsM2Branch_some_true (cl "500") (cl "500") 500 (by decide) pd_500,
    decNeg, round12_exact_neg 2 (-500000000000)
      (by norm_num) (by norm_num) (by norm_num) (by norm_num)]

theorem norm_agents_750 :
    normalize_number_str_agents (some (cl "750")) = .ok (some 750) := by
  rw [normalize_agents_step,
    show stripL (cl "750") = cl "750" from by decide,
    show parenSplit (cl "750") = (false, cl "750") from by decide]
  show agentsAfterParen false (cl "750") = _
  simp only [agentsAfterParen]
  rw [show removeSymbols (cl "750") = cl "750" from by decide,
    show scanSearch agentsMagAt (cl "750") = none from by decide]
  show agentsM2Branch false (cl "750") = _
  rw [agentsM2Branch_some_false (cl "750") (cl "750") 750 (by decide) pd_750]

theorem norm_agents_123 :
    normalize_number_str_agents (some (cl "123")) = .ok (some 123) := by
  rw [normalize_agents_step,
    show stripL (cl "123") = cl "123" from by decide,
    show parenSplit (cl "123") = (false, cl "123") from by decide]
  show agentsAfterParen false (cl "123") = _
  simp only [agentsAfterParen]
  rw [show removeSymbols (cl "123") = cl "123" from by decide,
    show scanSearch agentsMagAt (cl "123") = none from by decide]
  show agentsM2Branch false (cl "123") = _
  rw [agentsM2Branch_some_false (cl "123") (cl "123") 123 (by decide) pd_123]

theorem norm_tools_5 :
    normalize_number_str_tools (some (cl "5")) = some 5 := by
  rw [normalize_tools_step (by decide),
    show stripL (cl "5") = cl "5" from by decide,
    show parenSplit (cl "5") = (false, cl "5") from by decide]
  show toolsAfterParen false (cl "5") = _
  simp only [toolsAfterParen]
  rw [show removeSymbols (cl "5") = cl "5" from by decide,
    show pyReplace (pyReplace (cl "5") (cl "—") (cl "-")) (cl "–") (cl "-") = cl "5"
      from by decide,
    show scanSearch toolsMagAt (cl "5") = none from by decide]
  show toolsM2Branch false (cl "5") = _
  rw [toolsM2Branch_some_false (cl "5") (cl "5") 5 (by decide) pd_5]

theorem norm_tools_1bn :
    normalize_number_str_tools (some (cl "1 bn")) = some 1000000000 := by
  rw [normalize_tools_step (by decide),
    show stripL (cl "1 bn") = cl "1 bn" from by decide,
    show parenSplit (cl "1 bn") = (false, cl "1 bn") from by decide]
  show toolsAfterParen false (cl "1 bn") = _
  simp only [toolsAfterParen]
  rw [show removeSymbols (cl "1 bn") = cl "1 bn" from by decide,
    show pyReplace (pyReplace (cl "1 bn") (cl "—") (cl "-")) (cl "–") (cl "-") = cl "1 bn"
      from by decide,
    show scanSearch toolsMagAt (cl "1 bn") = some (cl "1", cl "bn") from by decide]
  show toolsMagBranch false (cl "1") (cl "bn") = _
  rw [toolsMagBranch_some (cl "1") (cl "bn") 1 pd_1,
    show toolsMultiplier (cl "bn") = 1000000000 from by
      rw [toolsMultiplier, if_pos (by decide : startsWithL (cl "bn") ['b'] = true)],
    decMul, show ((1 : ℚ) * 1000000000) = 1000000000 by norm_num,
    round12_exact_pos 9 100000000000 (by norm_num) (by norm_num) (by norm_num) (by norm_num)]

theorem norm_tools_7895m :
    normalize_number_str_tools (some (cl "7,895 m")) = some 7895000000 := by
  rw [normalize_tools_step (by decide),
    show stripL (cl "7,895 m") = cl "7,895 m" from by decide,
    show parenSplit (cl "7,895 m") = (false, cl "7,895 m") from by decide]
  show toolsAfterParen false (cl "7,895 m") = _
  simp only [toolsAfterParen]
  rw [show removeSymbols (cl "7,895 m") = cl "7895 m" from by decide,
    show pyReplace (pyReplace (cl "7895 m") (cl "—") (cl "-")) (cl "–") (cl "-") = cl "7895 m"
      from by decide,
    show scanSearch toolsMagAt (cl "7895 m") = some (cl "7895", cl "m") from by decide]
  show toolsMagBranch false (cl "7895") (cl "m") = _
  rw [toolsMagBranch_some (cl "7895") (cl "m") 7895 pd_7895,
    show toolsMultiplier (cl "m") = 1000000 from by
      rw [toolsMultiplier, if_neg (by decide : ¬ startsWithL (cl "m") ['b'] = true),
        if_pos (by decide : startsWithL (cl "m") ['m'] = true)],
    decMul, show ((7895 : ℚ) * 1000000) = 7895000000 by norm_num,
    round12_exact_pos 9 789500000000 (by norm_num) (by norm_num) (by norm_num) (by norm_num)]

theorem norm_agents_7895m :
    normalize_number_str_agents (some (cl "7,895 m")) = .ok (some 7895000000) := by
  rw [normalize_agents_step,
    show stripL (cl "7,895 m") = cl "7,895 m" from by decide,
    show parenSplit (cl "7,895 m") = (false, cl "7,895 m") from by decide]
  show agentsAfterParen false (cl "7,895 m") = _
  simp only [agentsAfterParen]
  rw [show removeSymbols (cl "7,895 m") = cl "7895 m" from by decide,
    show scanSearch agentsMagAt (cl "7895 m") = some (cl "7895", cl "m") from by decide]
  show agentsMagBranch false (cl "7895") (cl "m") = _
  rw [agentsMagBranch_some (cl "7895") (cl "m") 7895 pd_7895,
    show agentsMultiplier (cl "m") = 1000000 from by
      rw [agentsMultiplier, if_neg (by decide : ¬ startsWithL (cl "m") ['b'] = true),
        if_pos (by decide : startsWithL (cl "m") ['m'] = true)],
    decMul, show ((7895 : ℚ) * 1000000) = 7895000000 by norm_num,
    round12_exact_pos 9 789500000000 (by norm_num) (by norm_num) (by norm_num) (by norm_num)]

/-! ### Evaluation lemmas for the keyword-window extractors -/

theorem firstParseTools_cons_some (nm : List Char) (rest : List (List Char)) (v : ℚ)
    (h : normalize_number_str_tools (some nm) = some v) :
    firstParseTools (nm :: rest) = some (nm, v) := by
  rw [firstParseTools, h]

theorem firstParseAgents_cons_some (nm : List Char) (rest : List (List Char)) (v : ℚ)
    (h : normalize_number_str_agents (some nm) = .ok (some v)) :
    firstParseAgents (nm :: rest) = .ok (some (nm, v)) := by
  rw [firstParseAgents, h]

theorem toolsKwScan_hit (kws : List (List Char)) (line : List Char)
    (rest : List (List Char)) (i : ℕ) (nm : List Char) (v : ℚ)
    (h1 : anyKw kws line = true)
    (h2 : firstParseTools (reFindAllNums (joinSpace ((line :: rest).take 3))) = some (nm, v)) :
    toolsKwScan kws (line :: rest) i =
      some ⟨v, nm, stripL (joinSpace ((line :: rest).take 3)), some i⟩ := by
  simp only [toolsKwScan]
  rw [if_pos h1, h2]

theorem toolsKwScan_miss (kws : List (List Char)) (line : List Char)
    (rest : List (List Char)) (i : ℕ) (h : anyKw kws line = false) :
    toolsKwScan kws (line :: rest) i = toolsKwScan kws rest (i + 1) := by
  simp only [toolsKwScan]
  rw [if_neg (by rw [h]; decide : ¬ anyKw kws line = true)]

theorem agentsKwScan_hit (kws : List (List Char)) (line : List Char)
    (rest : List (List Char)) (i : ℕ) (nm : List Char) (v : ℚ)
    (h1 : anyKw kws line = true)
    (h2 : firstParseAgents (reFindAllNums (joinSpace ((line :: rest).take 3))) =
      .ok (some (nm, v))) :
    agentsKwScan kws (line :: rest) i =
      .ok (some ⟨v, nm, stripL (joinSpace ((line :: rest).take 3)), some i⟩) := by
  simp only [agentsKwScan]
  rw [if_pos h1, h2]

theorem agentsKwScan_miss (kws : List (List Char)) (line : List Char)
    (rest : List (List Char)) (i : ℕ) (h : anyKw kws line = false) :
    agentsKwScan kws (line :: rest) i = agentsKwScan kws rest (i + 1) := by
  simp only [agentsKwScan]
  rw [if_neg (by rw [h]; decide : ¬ anyKw kws line = true)]

theorem find_tools_kw (text : List Char) (kws : Option (List (List Char))) (r : Extract)
    (h : toolsKwScan (kws.getD toolsDefaultKeywords) (splitSep text) 0 = some r) :
    find_number_in_text_tools text kws = some r := by
  simp only [find_number_in_text_tools]
  rw [h]

theorem find_tools_fallback (text : List Char) (kws : Option (List (List Char)))
    (nm : List Char) (v : ℚ)
    (h1 : toolsKwScan (kws.getD toolsDefaultKeywords) (splitSep text) 0 = none)
    (h2 : firstParseTools (reFindAllNums text) = some (nm, v)) :
    find_number_in_text_tools text kws = some ⟨v, nm, text.take 300, none⟩ := by
  simp only [find_number_in_text_tools]
  rw [h1, h2]

theorem find_agents_kw (text : List Char) (kws : Option (List (List Char))) (r : Extract)
    (h : agentsKwScan (kws.getD agentsDefaultKeywords) (splitSep text) 0 = .ok (some r)) :
    find_number_in_text_agents text kws = .ok (some r) := by
  simp only [find_number_in_text_agents]
  rw [h]

theorem find_agents_fallback (text : List Char) (kws : Option (List (List Char)))
    (nm : List Char) (v : ℚ)
    (h1 : agentsKwScan (kws.getD agentsDefaultKeywords) (splitSep text) 0 = .ok none)
    (h2 : firstParseAgents (reFindAllNums text) = .ok (some (nm, v))) :
    find_number_in_text_agents text kws = .ok (some ⟨v, nm, text.take 300, none⟩) := by
  simp only [find_number_in_text_agents]
  rw [h1, h2]

/-- C4: in the end-to-end scenario of the specification, a keyword line whose
only numeric token is the parenthesized `(500)` yields `-500`, one whose only
token is `750` yields `750`, and the percent change from `-500` to `750` is
exactly `-250`. -/
theorem c4_sign_scenario :
    find_number_in_text_agents (cl "net income (500)") none =
      .ok (some ⟨-500, cl "(500)", cl "net income (500)", some 0⟩) ∧
    find_number_in_text_agents (cl "net income 750") none =
      .ok (some ⟨750, cl "750", cl "net income 750", some 0⟩) ∧
    calc_pct_change_agents (some (-500)) (some 750) = some (-250) := by
  refine ⟨?_, ?_, ?_⟩
  · apply find_agents_kw
    rw [show splitSep (cl "net income (500)") = [cl "net income (500)"] from by decide]
    have h2 : firstParseAgents
        (reFindAllNums (joinSpace ((cl "net income (500)" :: []).take 3))) =
        .ok (some (cl "(500)", -500)) := by
      rw [show joinSpace ((cl "net income (500)" :: []).take 3) = cl "net income (500)"
          from by decide,
        show reFindAllNums (cl "net income (500)") = [cl "(500)"] from by decide]
      exact firstParseAgents_cons_some _ _ _ norm_agents_paren500
    have h := agentsKwScan_hit agentsDefaultKeywords (cl "net income (500)") [] 0
      (cl "(500)") (-500) (by decide) h2
    rw [show stripL (joinSpace ((cl "net income (500)" :: []).take 3)) =
      cl "net income (500)" from by decide] at h
    exact h
  · apply find_agents_kw
    rw [show splitSep (cl "net income 750") = [cl "net income 750"] from by decide]
    have h2 : firstParseAgents
        (reFindAllNums (joinSpace ((cl "net income 750" :: []).take 3))) =
        .ok (some (cl "750", 750)) := by
      rw [show joinSpace ((cl "net income 750" :: []).take 3) = cl "net income 750"
          from by decide,
        show reFindAllNums (cl "net income 750") = [cl "750"] from by decide]
      exact firstParseAgents_cons_some _ _ _ norm_agents_750
    have h := agentsKwScan_hit agentsDefaultKeywords (cl "net income 750") [] 0
      (cl "750") 750 (by decide) h2
    rw [show stripL (joinSpace ((cl "net income 750" :: []).take 3)) =
      cl "net income 750" from by decide] at h
    exact h
  · rw [calc_agents_some_some (-500) 750 (by norm_num),
      decSub, show ((750 : ℚ) - (-500)) = 1250 by norm_num,
      round12_exact_pos 3 125000000000 (by norm_num) (by norm_num) (by norm_num) (by norm_num),
      decDiv, show ((1250 : ℚ) / (-500)) = -(5 / 2) by norm_num,
      round12_exact_neg 0 (-250000000000) (by norm_num) (by norm_num) (by norm_num)
        (by norm_num),
      decMul, show ((-(5 / 2) : ℚ) * 100) = -250 by norm_num,
      round12_exact_neg 2 (-250000000000) (by norm_num) (by norm_num) (by norm_num)
        (by norm_num)]

/-- Counterexample to C4 as frozen: the extractor returns the first numeric
token of the window that normalizes, so a keyword line that contains the
token `(500)` after an earlier plain number yields that earlier number, not
`-500`. -/
theorem c4_sign_scenario_counterexample :
    containsSub (cl "net income 123 (500)") (cl "(500)") = true ∧
    find_number_in_text_agents (cl "net income 123 (500)") none =
      .ok (some ⟨123, cl "123", cl "net income 123 (500)", some 0⟩) ∧
    (⟨123, cl "123", cl "net income 123 (500)", some 0⟩ : Extract).value ≠ -500 := by
  refine ⟨by decide, ?_, by norm_num⟩
  apply find_agents_kw
  rw [show splitSep (cl "net income 123 (500)") = [cl "net income 123 (500)"] from by decide]
  have h2 : firstParseAgents
      (reFindAllNums (joinSpace ((cl "net income 123 (500)" :: []).take 3))) =
      .ok (some (cl "123", 123)) := by
    rw [show joinSpace ((cl "net income 123 (500)" :: []).take 3) = cl "net income 123 (500)"
        from by decide,
      show reFindAllNums (cl "net income 123 (500)") = [cl "123", cl "(500)"] from by decide]
    exact firstParseAgents_cons_some _ _ _ norm_agents_123
  have h := agentsKwScan_hit agentsDefaultKeywords (cl "net income 123 (500)") [] 0
    (cl "123") 123 (by decide) h2
  rw [show stripL (joinSpace ((cl "net income 123 (500)" :: []).take 3)) =
    cl "net income 123 (500)" from by decide] at h
  exact h

/-- C5: on the specification passage both extractors return exactly
7,895 million = 7895000000 with the keyword window (matching line plus next
two lines, space-joined) as context, which contains the keyword line. -/
theorem c5_keyword_window :
    find_number_in_text_tools
        (cl "Net profit for the period was AED 7,895 million.\nOther text.") none =
      some ⟨7895000000, cl "7,895 m",
        cl "Net profit for the period was AED 7,895 million. Other text.", some 0⟩ ∧
    find_number_in_text_agents
        (cl "Net profit for the period was AED 7,895 million.\nOther text.") none =
      .ok (some ⟨7895000000, cl "7,895 m",
        cl "Net profit for the period was AED 7,895 million. Other text.", some 0⟩) ∧
    containsSub (cl "Net profit for the period was AED 7,895 million. Other text.")
      (cl "Net profit for the period was AED 7,895 million.") = true := by
  refine ⟨?_, ?_, by decide⟩
  · apply find_tools_kw
    rw [show splitSep (cl "Net profit for the period was AED 7,895 million.\nOther text.") =
      [cl "Net profit for the period was AED 7,895 million.", cl "Other text."] from by decide]
    have h2 : firstParseTools (reFindAllNums (joinSpace
        ((cl "Net profit for the period was AED 7,895 million." :: [cl "Other text."]).take 3)))
        = some (cl "7,895 m", 7895000000) := by
      rw [show joinSpace
          ((cl "Net profit for the period was AED 7,895 million." :: [cl "Other text."]).take 3)
          = cl "Net profit for the period was AED 7,895 million. Other text." from by decide,
        show reFindAllNums (cl "Net profit for the period was AED 7,895 million. Other text.")
          = [cl "7,895 m"] from by decide]
      exact firstParseTools_cons_some _ _ _ norm_tools_7895m
    have h := toolsKwScan_hit toolsDefaultKeywords
      (cl "Net profit for the period was AED 7,895 million.") [cl "Other text."] 0
      (cl "7,895 m") 7895000000 (by decide) h2
    rw [show stripL (joinSpace
        ((cl "Net profit for the period was AED 7,895 million." :: [cl "Other text."]).take 3))
      = cl "Net profit for the period was AED 7,895 million. Other text." from by decide] at h
    exact h
  · apply find_agents_kw
    rw [show splitSep (cl "Net profit for the period was AED 7,895 million.\nOther text.") =
      [cl "Net profit for the period was AED 7,895 million.", cl "Other text."] from by decide]
    have h2 : firstParseAgents (reFindAllNums (joinSpace
        ((cl "Net profit for the period was AED 7,895 million." :: [cl "Other text."]).take 3)))
        = .ok (some (cl "7,895 m", 7895000000)) := by
      rw [show joinSpace
          ((cl "Net profit for the period was AED 7,895 million." :: [cl "Other text."]).take 3)
          = cl "Net profit for the period was AED 7,895 million. Other text." from by decide,
        show reFindAllNums (cl "Net profit for the period was AED 7,895 million. Other text.")
          = [cl "7,895 m"] from by decide]
      exact firstParseAgents_cons_some _ _ _ norm_agents_7895m
    have h := agentsKwScan_hit agentsDefaultKeywords
      (cl "Net profit for the period was AED 7,895 million.") [cl "Other text."] 0
      (cl "7,895 m") 7895000000 (by decide) h2
    rw [show stripL (joinSpace
        ((cl "Net profit for the period was AED 7,895 million." :: [cl "Other text."]).take 3))
      = cl "Net profit for the period was AED 7,895 million. Other text." from by decide] at h
    exact h

/-- C7: the default keyword lists as they stand in the two sources (four
phrases in the tools version, six in the agents version), and the fact that
an absent `keywords` argument behaves exactly like passing the respective
default list. -/
theorem c7_default_keywords (text : List Char) :
    toolsDefaultKeywords = [cl "net profit", cl "net income",
      cl "profit for the period", cl "profit for the year"] ∧
    agentsDefaultKeywords = [cl "net profit", cl "net income",
      cl "profit for the period", cl "profit for the year",
      cl "profit attributable to owners", cl "profit after tax"] ∧
    find_number_in_text_tools text none =
      find_number_in_text_tools text (some toolsDefaultKeywords) ∧
    find_number_in_text_agents text none =
      find_number_in_text_agents text (some agentsDefaultKeywords) :=
  ⟨by decide, by decide, rfl, rfl⟩

/-- Counterexample to C7 as frozen: the tools default list has only four
phrases, and on a line matched only by the two missing phrases the tools
extractor demotes the figure to a window-less global fallback, unlike what
the claimed six defaults would produce. -/
theorem c7_default_keywords_counterexample :
    anyKw toolsDefaultKeywords (cl "profit after tax 5") = false ∧
    anyKw agentsDefaultKeywords (cl "profit after tax 5") = true ∧
    find_number_in_text_tools (cl "profit after tax 5") none =
      some ⟨5, cl "5", cl "profit after tax 5", none⟩ ∧
    find_number_in_text_tools (cl "profit after tax 5") (some agentsDefaultKeywords) =
      some ⟨5, cl "5", cl "profit after tax 5", some 0⟩ ∧
    find_number_in_text_tools (cl "profit after tax 5") none ≠
      find_number_in_text_tools (cl "profit after tax 5") (some agentsDefaultKeywords) := by
  have hfall : find_number_in_text_tools (cl "profit after tax 5") none =
      some ⟨5, cl "5", cl "profit after tax 5", none⟩ := by
    have h := find_tools_fallback (cl "profit after tax 5") none (cl "5") 5
      (by rw [show splitSep (cl "profit after tax 5") = [cl "profit after tax 5"]
            from by decide,
          toolsKwScan_miss _ _ _ _ (by decide)]
          rfl)
      (by rw [show reFindAllNums (cl "profit after tax 5") = [cl "5"] from by decide]
          exact firstParseTools_cons_some _ _ _ norm_tools_5)
    rw [show (cl "profit after tax 5").take 300 = cl "profit after tax 5" from by decide] at h
    exact h
  have hkw : find_number_in_text_tools (cl "profit after tax 5")
      (some agentsDefaultKeywords) = some ⟨5, cl "5", cl "profit after tax 5", some 0⟩ := by
    apply find_tools_kw
    rw [show splitSep (cl "profit after tax 5") = [cl "profit after tax 5"] from by decide]
    have h2 : firstParseTools
        (reFindAllNums (joinSpace ((cl "profit after tax 5" :: []).take 3))) =
        some (cl "5", 5) := by
      rw [show joinSpace ((cl "profit after tax 5" :: []).take 3) = cl "profit after tax 5"
          from by decide,
        show reFindAllNums (cl "profit after tax 5") = [cl "5"] from by decide]
      exact firstParseTools_cons_some _ _ _ norm_tools_5
    have h := toolsKwScan_hit agentsDefaultKeywords (cl "profit after tax 5") [] 0
      (cl "5") 5 (by decide) h2
    rw [show stripL (joinSpace ((cl "profit after tax 5" :: []).take 3)) =
      cl "profit after tax 5" from by decide] at h
    exact h
  refine ⟨by decide, by decide, hfall, hkw, ?_⟩
  rw [hfall, hkw]
  intro hcontra
  rw [Option.some.injEq] at hcontra
  exact Option.noConfusion (congrArg Extract.lineIdx hcontra)

/-- C8: year and quarter inference.  The year is the first `20dd` (two literal digits) hit in the
lowercased source; a quarter token needs a non-word character (or an edge) on
both sides of `q<digit>`, matched case-insensitively; without a token hit the
month table is consulted in insertion order, first containment winning. -/
theorem c8_year_quarter :
    infer_year_quarter_from_source (cl "FAB Q3 2024 Earnings.pdf") =
      ⟨some 2024, some (cl "Q3")⟩ ∧
    infer_year_quarter_from_source (cl "fab-q4-2023.pdf") =
      ⟨some 2023, some (cl "Q4")⟩ ∧
    infer_year_quarter_from_source (cl "FAB June 2022 results") =
      ⟨some 2022, some (cl "Q2")⟩ ∧
    infer_year_quarter_from_source (cl "report for march and june") =
      ⟨none, some (cl "Q1")⟩ ∧
    infer_year_quarter_from_source (cl "december update 2019") =
      ⟨some 2019, some (cl "Q4")⟩ ∧
    infer_year_quarter_from_source (cl "no dates here") = ⟨none, none⟩ ∧
    infer_year_quarter_from_source (cl "2023 then 2024") = ⟨some 2023, none⟩ := by
  refine ⟨by decide, by decide, by decide, by decide, by decide, by decide, by decide⟩

/-- Counterexample to C8 as frozen: in `"FAB_Q3_2024_Earnings.pdf"` the
underscores are word characters, so `\bq([1-4])\b` does not match `Q3` and
the inferred quarter is absent, not `Q3`. -/
theorem c8_year_quarter_counterexample :
    infer_year_quarter_from_source (cl "FAB_Q3_2024_Earnings.pdf") =
      ⟨some 2024, none⟩ ∧
    containsSub (cl "FAB_Q3_2024_Earnings.pdf") (cl "Q3") = true := by
  exact ⟨by decide, by decide⟩

/-- Full characterization of the `choose_best_extract` accumulator loop:
either nothing in the list beats the incoming accumulator (which is returned,
and bounds every present score), or the first list entry achieving the
strictly best score is returned. -/
theorem chooseBestAux_spec : ∀ (l : List Candidate) (acc : Option (ℕ × Candidate)),
    (chooseBestAux acc l = acc ∧
      ∀ c' ∈ l, ∀ e', c'.extract = some e' →
        ∃ bs bc, acc = some (bs, bc) ∧ bs ≤ scoreOf e') ∨
    (∃ s c l₁ l₂ e, chooseBestAux acc l = some (s, c) ∧ l = l₁ ++ c :: l₂ ∧
      c.extract = some e ∧ s = scoreOf e ∧
      (∀ bs bc, acc = some (bs, bc) → s < bs) ∧
      (∀ c' ∈ l₁, ∀ e', c'.extract = some e' → s < scoreOf e') ∧
      (∀ c' ∈ l₂, ∀ e', c'.extract = some e' → s ≤ scoreOf e'))
  | [], acc => Or.inl ⟨rfl, fun c' hc' => absurd hc' (List.not_mem_nil c')⟩
  | r :: rest, acc => by
    have hstep : chooseBestAux acc (r :: rest) = chooseBestAux (chooseStep acc r) rest := rfl
    cases hre : r.extract with
    | none =>
      have hcs : chooseStep acc r = acc := by rw [chooseStep, hre]
      rcases chooseBestAux_spec rest acc with ⟨heq, hbound⟩ |
        ⟨s, c, l₁, l₂, e, heq, hsplit, hce, hs, haccs, hbefore, hafter⟩
      · left
        refine ⟨by rw [hstep, hcs, heq], ?_⟩
        intro c' hc' e' he'
        rcases List.mem_cons.mp hc' with rfl | hmem
        · rw [hre] at he'
          exact Option.noConfusion he'
        · exact hbound c' hmem e' he'
      · right
        refine ⟨s, c, r :: l₁, l₂, e, by rw [hstep, hcs, heq], by rw [hsplit, List.cons_append], hce, hs,
          haccs, ?_, hafter⟩
        intro c' hc' e' he'
        rcases List.mem_cons.mp hc' with rfl | hmem
        · rw [hre] at he'
          exact Option.noConfusion he'
        · exact hbefore c' hmem e' he'
    | some e0 =>
      cases acc with
      | none =>
        have hcs : chooseStep none r = some (scoreOf e0, r) := by rw [chooseStep, hre]
        rcases chooseBestAux_spec rest (some (scoreOf e0, r)) with ⟨heq, hbound⟩ |
          ⟨s, c, l₁, l₂, e, heq, hsplit, hce, hs, haccs, hbefore, hafter⟩
        · right
          refine ⟨scoreOf e0, r, [], rest, e0, by rw [hstep, hcs, heq], rfl, hre, rfl,
            fun bs bc hacc => Option.noConfusion hacc,
            fun c' hc' => absurd hc' (List.not_mem_nil c'), ?_⟩
          intro c' hc' e' he'
          obtain ⟨bs, bc, hbs, hle⟩ := hbound c' hc' e' he'
          rw [Option.some.injEq, Prod.mk.injEq] at hbs
          rw [hbs.1]
          exact hle
        · right
          have hlt : s < scoreOf e0 := haccs (scoreOf e0) r rfl
          refine ⟨s, c, r :: l₁, l₂, e, by rw [hstep, hcs, heq], by rw [hsplit, List.cons_append], hce, hs,
            fun bs bc hacc => Option.noConfusion hacc, ?_, hafter⟩
          intro c' hc' e' he'
          rcases List.mem_cons.mp hc' with rfl | hmem
          · rw [hre, Option.some.injEq] at he'
            exact he' ▸ hlt
          · exact hbefore c' hmem e' he'
      | some bsc =>
        obtain ⟨bs0, bc0⟩ := bsc
        by_cases hlt0 : scoreOf e0 < bs0
        · have hcs : chooseStep (some (bs0, bc0)) r = some (scoreOf e0, r) := by
            rw [chooseStep, hre]
            show (if scoreOf e0 < bs0 then some (scoreOf e0, r) else some (bs0, bc0)) = _
            rw [if_pos hlt0]
          rcases chooseBestAux_spec rest (some (scoreOf e0, r)) with ⟨heq, hbound⟩ |
            ⟨s, c, l₁, l₂, e, heq, hsplit, hce, hs, haccs, hbefore, hafter⟩
          · right
            refine ⟨scoreOf e0, r, [], rest, e0, by rw [hstep, hcs, heq], rfl, hre, rfl,
              ?_, fun c' hc' => absurd hc' (List.not_mem_nil c'), ?_⟩
            · intro bs bc hacc
              rw [Option.some.injEq, Prod.mk.injEq] at hacc
              rw [← hacc.1]
              exact hlt0
            · intro c' hc' e' he'
              obtain ⟨bs, bc, hbs, hle⟩ := hbound c' hc' e' he'
              rw [Option.some.injEq, Prod.mk.injEq] at hbs
              rw [hbs.1]
              exact hle
          · right
            have hlt : s < scoreOf e0 := haccs (scoreOf e0) r rfl
            refine ⟨s, c, r :: l₁, l₂, e, by rw [hstep, hcs, heq], by rw [hsplit, List.cons_append], hce, hs,
              ?_, ?_, hafter⟩
            · intro bs bc hacc
              rw [Option.some.injEq, Prod.mk.injEq] at hacc
              rw [← hacc.1]
              exact Nat.lt_trans hlt hlt0
            · intro c' hc' e' he'
              rcases List.mem_cons.mp hc' with rfl | hmem
              · rw [hre, Option.some.injEq] at he'
                exact he' ▸ hlt
              · exact hbefore c' hmem e' he'
        · have hcs : chooseStep (some (bs0, bc0)) r = some (bs0, bc0) := by
            rw [chooseStep, hre]
            show (if scoreOf e0 < bs0 then some (scoreOf e0, r) else some (bs0, bc0)) = _
            rw [if_neg hlt0]
          have hge : bs0 ≤ scoreOf e0 := Nat.le_of_not_lt hlt0
          rcases chooseBestAux_spec rest (some (bs0, bc0)) with ⟨heq, hbound⟩ |
            ⟨s, c, l₁, l₂, e, heq, hsplit, hce, hs, haccs, hbefore, hafter⟩
          · left
            refine ⟨by rw [hstep, hcs, heq], ?_⟩
            intro c' hc' e' he'
            rcases List.mem_cons.mp hc' with rfl | hmem
            · rw [hre, Option.some.injEq] at he'
              exact ⟨bs0, bc0, rfl, he' ▸ hge⟩
            · exact hbound c' hmem e' he'
          · right
            have hlt : s < bs0 := haccs bs0 bc0 rfl
            refine ⟨s, c, r :: l₁, l₂, e, by rw [hstep, hcs, heq], by rw [hsplit, List.cons_append], hce, hs,
              haccs, ?_, hafter⟩
            intro c' hc' e' he'
            rcases List.mem_cons.mp hc' with rfl | hmem
            · rw [hre, Option.some.injEq] at he'
              exact he' ▸ Nat.lt_of_lt_of_le hlt hge
            · exact hbefore c' hmem e' he'

/-- C6: the selector returns absent on an empty list and otherwise the first
candidate with a present extraction achieving the strictly smallest score
(its line index, or the 1000 sentinel when absent): every present extraction
before it scores strictly higher, every one after scores no lower. -/
theorem c6_selector :
    choose_best_extract [] = none ∧
    ∀ (results : List Candidate) (c : Candidate),
      choose_best_extract results = some c →
        ∃ l₁ l₂ e, results = l₁ ++ c :: l₂ ∧ c.extract = some e ∧
          (∀ c' ∈ l₁, ∀ e', c'.extract = some e' → scoreOf e < scoreOf e') ∧
          (∀ c' ∈ l₂, ∀ e', c'.extract = some e' → scoreOf e ≤ scoreOf e') := by
  refine ⟨rfl, ?_⟩
  intro results c h
  rw [choose_best_extract] at h
  rcases chooseBestAux_spec results none with ⟨heq, _⟩ |
    ⟨s, c0, l₁, l₂, e, heq, hsplit, hce, hs, _, hbefore, hafter⟩
  · rw [heq] at h
    exact Option.noConfusion h
  · rw [heq] at h
    rw [show Option.map Prod.snd (some (s, c0)) = some c0 from rfl, Option.some.injEq] at h
    subst h
    refine ⟨l₁, l₂, e, hsplit, hce, ?_, ?_⟩
    · intro c' hc' e' he'
      exact hs ▸ hbefore c' hc' e' he'
    · intro c' hc' e' he'
      exact hs ▸ hafter c' hc' e' he'

/-- Closed instance of the selector theorem: on a two-entry list whose first
extraction is absent, the second entry is selected and satisfies the
characterization. -/
theorem c6_selector_witness :
    choose_best_extract [⟨cl "a", none⟩, ⟨cl "b", some ⟨0, [], [], some 2⟩⟩] =
      some ⟨cl "b", some ⟨0, [], [], some 2⟩⟩ ∧
    ∃ l₁ l₂ e,
      [Candidate.mk (cl "a") none, Candidate.mk (cl "b") (some ⟨0, [], [], some 2⟩)] =
        l₁ ++ Candidate.mk (cl "b") (some ⟨0, [], [], some 2⟩) :: l₂ ∧
      (Candidate.mk (cl "b") (some ⟨0, [], [], some 2⟩)).extract = some e ∧
      (∀ c' ∈ l₁, ∀ e', c'.extract = some e' → scoreOf e < scoreOf e') ∧
      (∀ c' ∈ l₂, ∀ e', c'.extract = some e' → scoreOf e ≤ scoreOf e') :=
  ⟨rfl, c6_selector.2 [⟨cl "a", none⟩, ⟨cl "b", some ⟨0, [], [], some 2⟩⟩]
    ⟨cl "b", some ⟨0, [], [], some 2⟩⟩ rfl⟩

/-- Counterexample to C6 as frozen: a keyword-window candidate whose
`line_index` is exactly the 1000 sentinel does not beat an earlier fallback
candidate without one — the claimed unconditional preference fails. -/
theorem c6_selector_counterexample :
    choose_best_extract
      [⟨cl "fallback", some ⟨0, cl "n", cl "ctx", none⟩⟩,
       ⟨cl "kw", some ⟨0, cl "n", cl "ctx", some 1000⟩⟩] =
      some ⟨cl "fallback", some ⟨0, cl "n", cl "ctx", none⟩⟩ ∧
    (⟨0, cl "n", cl "ctx", some 1000⟩ : Extract).lineIdx ≠ none :=
  ⟨rfl, by decide⟩

/-! ### Tokens are slices: the matched text is a substring of the scanned
window -/

theorem ciPrefix_drop : ∀ (p s r : List Char), ciPrefix p s = some r → r = s.drop p.length
  | [], s, r, h => by
    rw [ciPrefix, Option.some.injEq] at h
    rw [← h]
    rfl
  | p :: ps, [], r, h => by
    rw [ciPrefix] at h
    exact Option.noConfusion h
  | p :: ps, c :: cs, r, h => by
    rw [ciPrefix] at h
    by_cases hc : c.toLower = p
    · rw [if_pos hc] at h
      rw [ciPrefix_drop ps cs r h]
      rfl
    · rw [if_neg hc] at h
      exact Option.noConfusion h

theorem matchUnitNoB_split : ∀ (us : List (List Char)) (s orig r : List Char),
    matchUnitNoB us s = some (orig, r) → s = orig ++ r
  | [], s, orig, r, h => Option.noConfusion h
  | u :: us', s, orig, r, h => by
    rw [matchUnitNoB] at h
    cases hci : ciPrefix u s with
    | some rest =>
      rw [hci] at h
      rw [Option.some.injEq, Prod.mk.injEq] at h
      rw [← h.1, ← h.2]
      have hd := ciPrefix_drop u s rest hci
      calc s = List.take u.length s ++ List.drop u.length s :=
            (List.take_append_drop u.length s).symm
        _ = List.take u.length s ++ rest := by rw [← hd]
    | none =>
      rw [hci] at h
      exact matchUnitNoB_split us' s orig r h

theorem take1_decomp (s : List Char) (x : Char) (p : List Char)
    (hp : (if s.take 1 = [x] then [x] else []) = p) : p ++ s.drop p.length = s := by
  by_cases h1 : s.take 1 = [x]
  · rw [if_pos h1] at hp
    rw [← hp, show ([x] : List Char).length = 1 from rfl, ← h1]
    exact List.take_append_drop 1 s
  · rw [if_neg h1] at hp
    rw [← hp]
    rfl

theorem head?_decomp {l : List Char} {x : Char} (h : l.head? = some x) : l = x :: l.tail := by
  cases l with
  | nil => exact Option.noConfusion h
  | cons a t =>
    rw [List.head?_cons, Option.some.injEq] at h
    rw [h]
    rfl

theorem numTokenAt_split (s tok rest : List Char) (h : numTokenAt s = some (tok, rest)) :
    s = tok ++ rest := by
  simp only [numTokenAt] at h
  generalize hP : (if List.take 1 s = ['('] then (['('] : List Char) else []) = par at h
  have hpar : par ++ List.drop par.length s = s := take1_decomp s '(' par hP
  generalize hS :
    (if List.take 1 (List.drop par.length s) = ['-'] then (['-'] : List Char) else []) = sg at h
  have hsgn : sg ++ List.drop sg.length (List.drop par.length s) = List.drop par.length s :=
    take1_decomp (List.drop par.length s) '-' sg hS
  cases ht1 : List.drop sg.length (List.drop par.length s) with
  | nil =>
    simp only [ht1] at h
    exact Option.noConfusion h
  | cons c t2 =>
    simp only [ht1] at h
    rw [ht1] at hsgn
    have hps : par ++ (sg ++ (c :: t2)) = s := by
      rw [← hpar, hsgn]
    by_cases hdig : c.isDigit = true
    · rw [if_pos hdig] at h
      have htw : List.takeWhile isNumBodyC t2 ++ List.dropWhile isNumBodyC t2 = t2 :=
        List.takeWhile_append_dropWhile isNumBodyC t2
      cases hmu : matchUnitNoB unitsList
          (List.dropWhile isSpaceC (List.dropWhile isNumBodyC t2)) with
      | some opair =>
        obtain ⟨orig, r⟩ := opair
        simp only [hmu] at h
        have ht4 : List.takeWhile isSpaceC (List.dropWhile isNumBodyC t2) ++ (orig ++ r) =
            List.dropWhile isNumBodyC t2 := by
          rw [← matchUnitNoB_split unitsList _ orig r hmu]
          exact List.takeWhile_append_dropWhile _ _
        by_cases hx : r.head? = some ')'
        · rw [if_pos hx] at h
          rw [Option.some.injEq, Prod.mk.injEq] at h
          obtain ⟨h1, h2⟩ := h
          rw [← h1, ← h2]
          have hr : r = ')' :: r.tail := head?_decomp hx
          calc s = par ++ (sg ++ (c :: t2)) := hps.symm
            _ = par ++ (sg ++ (c :: (List.takeWhile isNumBodyC t2 ++
                (List.takeWhile isSpaceC (List.dropWhile isNumBodyC t2) ++
                  (orig ++ (')' :: r.tail)))))) := by
                rw [← hr, ht4, htw]
            _ = _ := by simp [List.append_assoc]
        · rw [if_neg hx] at h
          rw [Option.some.injEq, Prod.mk.injEq] at h
          obtain ⟨h1, h2⟩ := h
          rw [← h1, ← h2]
          calc s = par ++ (sg ++ (c :: t2)) := hps.symm
            _ = par ++ (sg ++ (c :: (List.takeWhile isNumBodyC t2 ++
                (List.takeWhile isSpaceC (List.dropWhile isNumBodyC t2) ++
                  (orig ++ r))))) := by
                rw [ht4, htw]
            _ = _ := by simp [List.append_assoc]
      | none =>
        simp only [hmu] at h
        by_cases hx : (List.dropWhile isNumBodyC t2).head? = some ')'
        · rw [if_pos hx] at h
          rw [Option.some.injEq, Prod.mk.injEq] at h
          obtain ⟨h1, h2⟩ := h
          rw [← h1, ← h2]
          have hr : List.dropWhile isNumBodyC t2 = ')' :: (List.dropWhile isNumBodyC t2).tail :=
            head?_decomp hx
          calc s = par ++ (sg ++ (c :: t2)) := hps.symm
            _ = par ++ (sg ++ (c :: (List.takeWhile isNumBodyC t2 ++
                (')' :: (List.dropWhile isNumBodyC t2).tail)))) := by
                rw [← hr, htw]
            _ = _ := by simp [List.append_assoc]
        · rw [if_neg hx] at h
          rw [Option.some.injEq, Prod.mk.injEq] at h
          obtain ⟨h1, h2⟩ := h
          rw [← h1, ← h2]
          calc s = par ++ (sg ++ (c :: t2)) := hps.symm
            _ = par ++ (sg ++ (c :: (List.takeWhile isNumBodyC t2 ++
                List.dropWhile isNumBodyC t2))) := by rw [htw]
            _ = _ := by simp [List.append_assoc]
    · rw [if_neg hdig] at h
      exact Option.noConfusion h

theorem findAllAux_slice : ∀ (fuel : ℕ) (s tok : List Char),
    tok ∈ findAllAux fuel s → tok <:+: s
  | 0, s, tok, h => absurd h (List.not_mem_nil tok)
  | _ + 1, [], tok, h => absurd h (List.not_mem_nil tok)
  | fuel + 1, c :: cs, tok, h => by
    rw [findAllAux] at h
    cases hnt : numTokenAt (c :: cs) with
    | some mr =>
      obtain ⟨m, rest⟩ := mr
      rw [hnt] at h
      rcases List.mem_cons.mp h with rfl | hmem
      · exact ⟨[], rest, by
          rw [List.nil_append]
          exact (numTokenAt_split (c :: cs) tok rest hnt).symm⟩
      · exact (findAllAux_slice fuel rest tok hmem).trans
          ⟨m, [], by
            rw [List.append_nil]
            exact (numTokenAt_split (c :: cs) m rest hnt).symm⟩
    | none =>
      rw [hnt] at h
      exact (findAllAux_slice fuel cs tok h).trans ⟨[c], [], by simp⟩

theorem reFindAllNums_slice (s tok : List Char) (h : tok ∈ reFindAllNums s) : tok <:+: s :=
  findAllAux_slice s.length s tok h

theorem containsSub_cons_or (c : Char) (cs pat : List Char) :
    containsSub (c :: cs) pat = (prefixAt pat (c :: cs) || containsSub cs pat) := rfl

theorem containsSub_of_append : ∀ (l t r s : List Char), s = l ++ (t ++ r) →
    containsSub s t = true
  | [], t, r, s, h => by
    subst h
    rw [List.nil_append]
    cases t with
    | nil =>
      cases r with
      | nil => rfl
      | cons b bs =>
        rw [List.nil_append, containsSub_cons_or,
          show prefixAt [] (b :: bs) = true from rfl]
        rfl
    | cons a as =>
      rw [List.cons_append, containsSub_cons_or, ← List.cons_append, prefixAt_self_append]
      rfl
  | a :: l, t, r, s, h => by
    subst h
    rw [List.cons_append, containsSub_cons_or, containsSub_of_append l t r _ rfl]
    rw [Bool.or_true]

theorem containsSub_of_sub {t s : List Char} (h : t <:+: s) : containsSub s t = true := by
  obtain ⟨l, r, hlr⟩ := h
  exact containsSub_of_append l t r s (by rw [← hlr, List.append_assoc])

theorem firstParseTools_mem : ∀ (l : List (List Char)) (nm : List Char) (v : ℚ),
    firstParseTools l = some (nm, v) → nm ∈ l
  | [], nm, v, h => Option.noConfusion h
  | t :: restl, nm, v, h => by
    rw [firstParseTools] at h
    cases hn : normalize_number_str_tools (some t) with
    | none =>
      rw [hn] at h
      exact List.mem_cons_of_mem t (firstParseTools_mem restl nm v h)
    | some v0 =>
      simp only [hn] at h
      rw [Option.some.injEq, Prod.mk.injEq] at h
      rw [← h.1]
      exact List.mem_cons_self t restl

theorem firstParseAgents_mem : ∀ (l : List (List Char)) (nm : List Char) (v : ℚ),
    firstParseAgents l = .ok (some (nm, v)) → nm ∈ l
  | [], nm, v, h => by
    rw [firstParseAgents] at h
    rw [Except.ok.injEq] at h
    exact Option.noConfusion h
  | t :: restl, nm, v, h => by
    rw [firstParseAgents] at h
    cases hn : normalize_number_str_agents (some t) with
    | error e =>
      simp only [hn] at h
      exact Except.noConfusion h
    | ok o =>
      cases o with
      | none =>
        simp only [hn] at h
        exact List.mem_cons_of_mem t (firstParseAgents_mem restl nm v h)
      | some v0 =>
        simp only [hn] at h
        rw [Except.ok.injEq, Option.some.injEq, Prod.mk.injEq] at h
        rw [← h.1]
        exact List.mem_cons_self t restl

theorem joinSpace_nil : joinSpace ([] : List (List Char)) = [] := rfl

theorem joinSpace_single (a : List Char) : joinSpace [a] = a := by
  simp [joinSpace, List.intercalate]

theorem joinSpace_cons₂ (a b : List Char) (t : List (List Char)) :
    joinSpace (a :: b :: t) = a ++ ' ' :: joinSpace (b :: t) := by
  simp [joinSpace, List.intercalate, List.intersperse]

theorem prefix_append_left (c : List Char) {x y : List Char} (h : x <+: y) :
    c ++ x <+: c ++ y := by
  obtain ⟨u, hu⟩ := h
  exact ⟨u, by rw [List.append_assoc, hu]⟩

theorem joinSpace_take_pre : ∀ (n : ℕ) (l : List (List Char)),
    joinSpace (l.take n) <+: joinSpace l
  | 0, l => by
    rw [List.take_zero]
    exact List.nil_prefix
  | n + 1, [] => by
    rw [List.take_nil]
  | n + 1, a :: t => by
    rw [List.take_succ_cons]
    cases t with
    | nil =>
      rw [List.take_nil]
    | cons b t' =>
      have ih := joinSpace_take_pre n (b :: t')
      cases hn : (b :: t').take n with
      | nil =>
        rw [joinSpace_single, joinSpace_cons₂]
        exact ⟨' ' :: joinSpace (b :: t'), rfl⟩
      | cons x xs =>
        rw [hn] at ih
        rw [joinSpace_cons₂, joinSpace_cons₂]
        have : a ++ [' '] ++ joinSpace (x :: xs) <+: a ++ [' '] ++ joinSpace (b :: t') :=
          prefix_append_left (a ++ [' ']) ih
        rw [List.append_assoc, List.append_assoc] at this
        exact this

theorem joinSpace_suffix_sub : ∀ (l₁ l₂ : List (List Char)),
    joinSpace l₂ <:+: joinSpace (l₁ ++ l₂)
  | [], l₂ => by
    rw [List.nil_append]
  | a :: l₁', l₂ => by
    have ih := joinSpace_suffix_sub l₁' l₂
    rw [List.cons_append]
    cases hl : l₁' ++ l₂ with
    | nil =>
      have h2 : l₂ = [] := (List.append_eq_nil.mp hl).2
      rw [h2, joinSpace_nil]
      exact List.nil_infix
    | cons b t =>
      have ih2 : joinSpace l₂ <:+: joinSpace (b :: t) := by
        rw [hl] at ih
        exact ih
      rw [joinSpace_cons₂]
      exact ih2.trans ⟨a ++ [' '], [], by simp⟩

theorem window_sub (line : List Char) (rest : List (List Char)) :
    joinSpace ((line :: rest).take 3) <:+: joinSpace (line :: rest) :=
  (joinSpace_take_pre 3 (line :: rest)).isInfix

theorem joinSpace_tail_sub (line : List Char) (rest : List (List Char)) :
    joinSpace rest <:+: joinSpace (line :: rest) := by
  have := joinSpace_suffix_sub [line] rest
  rw [show ([line] : List (List Char)) ++ rest = line :: rest from rfl] at this
  exact this

theorem toolsKwScan_matched : ∀ (kws ls : List (List Char)) (i : ℕ) (e : Extract),
    toolsKwScan kws ls i = some e → e.matched <:+: joinSpace ls
  | kws, [], i, e, h => Option.noConfusion h
  | kws, line :: restl, i, e, h => by
    simp only [toolsKwScan] at h
    by_cases hkw : anyKw kws line = true
    · rw [if_pos hkw] at h
      cases hfp : firstParseTools (reFindAllNums (joinSpace ((line :: restl).take 3))) with
      | some nmv =>
        obtain ⟨nm, v⟩ := nmv
        simp only [hfp] at h
        rw [Option.some.injEq] at h
        have hm : e.matched = nm := by rw [← h]
        rw [hm]
        have h1 : nm <:+: joinSpace ((line :: restl).take 3) :=
          reFindAllNums_slice _ nm
            (firstParseTools_mem _ nm v hfp)
        exact h1.trans (window_sub line restl)
      | none =>
        simp only [hfp] at h
        exact (toolsKwScan_matched kws restl (i + 1) e h).trans
          (joinSpace_tail_sub line restl)
    · rw [if_neg hkw] at h
      exact (toolsKwScan_matched kws restl (i + 1) e h).trans
        (joinSpace_tail_sub line restl)

theorem agentsKwScan_matched : ∀ (kws ls : List (List Char)) (i : ℕ) (e : Extract),
    agentsKwScan kws ls i = .ok (some e) → e.matched <:+: joinSpace ls
  | kws, [], i, e, h => by
    rw [agentsKwScan, Except.ok.injEq] at h
    exact Option.noConfusion h
  | kws, line :: restl, i, e, h => by
    simp only [agentsKwScan] at h
    by_cases hkw : anyKw kws line = true
    · rw [if_pos hkw] at h
      cases hfp : firstParseAgents (reFindAllNums (joinSpace ((line :: restl).take 3))) with
      | error e0 =>
        simp only [hfp] at h
        exact Except.noConfusion h
      | ok o =>
        cases o with
        | some nmv =>
          obtain ⟨nm, v⟩ := nmv
          simp only [hfp] at h
          rw [Except.ok.injEq, Option.some.injEq] at h
          have hm : e.matched = nm := by rw [← h]
          rw [hm]
          have h1 : nm <:+: joinSpace ((line :: restl).take 3) :=
            reFindAllNums_slice _ nm (firstParseAgents_mem _ nm v hfp)
          exact h1.trans (window_sub line restl)
        | none =>
          simp only [hfp] at h
          exact (agentsKwScan_matched kws restl (i + 1) e h).trans
            (joinSpace_tail_sub line restl)
    · rw [if_neg hkw] at h
      exact (agentsKwScan_matched kws restl (i + 1) e h).trans
        (joinSpace_tail_sub line restl)

/-- C9 (corrected): whatever either extractor returns, the matched text is a
substring of the line-joined document (keyword-window route: the window is a
space-join of consecutive lines) or of the original text itself (global
fallback route). -/
theorem c9_matched_text (text : List Char) (kws : Option (List (List Char))) (e : Extract) :
    (find_number_in_text_tools text kws = some e →
      containsSub (joinSpace (splitSep text)) e.matched = true ∨
      containsSub text e.matched = true) ∧
    (find_number_in_text_agents text kws = .ok (some e) →
      containsSub (joinSpace (splitSep text)) e.matched = true ∨
      containsSub text e.matched = true) := by
  constructor
  · intro h
    simp only [find_number_in_text_tools] at h
    cases hscan : toolsKwScan (kws.getD toolsDefaultKeywords) (splitSep text) 0 with
    | some r =>
      simp only [hscan] at h
      rw [Option.some.injEq] at h
      subst h
      exact Or.inl (containsSub_of_sub (toolsKwScan_matched _ _ _ _ hscan))
    | none =>
      simp only [hscan] at h
      cases hfp : firstParseTools (reFindAllNums text) with
      | some nmv =>
        obtain ⟨nm, v⟩ := nmv
        simp only [hfp] at h
        rw [Option.some.injEq] at h
        have hm : e.matched = nm := by rw [← h]
        rw [hm]
        exact Or.inr (containsSub_of_sub
          (reFindAllNums_slice text nm (firstParseTools_mem _ nm v hfp)))
      | none =>
        simp only [hfp] at h
        exact Option.noConfusion h
  · intro h
    simp only [find_number_in_text_agents] at h
    cases hscan : agentsKwScan (kws.getD agentsDefaultKeywords) (splitSep text) 0 with
    | error e0 =>
      simp only [hscan] at h
      exact Except.noConfusion h
    | ok o =>
      cases o with
      | some r =>
        simp only [hscan] at h
        rw [Except.ok.injEq, Option.some.injEq] at h
        subst h
        exact Or.inl (containsSub_of_sub (agentsKwScan_matched _ _ _ _ hscan))
      | none =>
        simp only [hscan] at h
        cases hfp : firstParseAgents (reFindAllNums text) with
        | error e0 =>
          simp only [hfp] at h
          exact Except.noConfusion h
        | ok o2 =>
          cases o2 with
          | some nmv =>
            obtain ⟨nm, v⟩ := nmv
            simp only [hfp] at h
            rw [Except.ok.injEq, Option.some.injEq] at h
            have hm : e.matched = nm := by rw [← h]
            rw [hm]
            exact Or.inr (containsSub_of_sub
              (reFindAllNums_slice text nm (firstParseAgents_mem _ nm v hfp)))
          | none =>
            simp only [hfp] at h
            rw [Except.ok.injEq] at h
            exact Option.noConfusion h

/-- The tools extractor on the bare text `"5"`: no keyword hits, the global
fallback finds the token. -/
theorem find_tools_5 :
    find_number_in_text_tools (cl "5") none = some ⟨5, cl "5", cl "5", none⟩ := by
  have h := find_tools_fallback (cl "5") none (cl "5") 5
    (by rw [show splitSep (cl "5") = [cl "5"] from by decide,
          toolsKwScan_miss _ _ _ _ (by decide)]
        rfl)
    (by rw [show reFindAllNums (cl "5") = [cl "5"] from by decide]
        exact firstParseTools_cons_some _ _ _ norm_tools_5)
  rw [show (cl "5").take 300 = cl "5" from by decide] at h
  exact h

/-- Closed instance of the matched-text theorem on the text `"5"`. -/
theorem c9_matched_text_witness :
    containsSub (joinSpace (splitSep (cl "5"))) (cl "5") = true ∨
    containsSub (cl "5") (cl "5") = true :=
  (c9_matched_text (cl "5") none ⟨5, cl "5", cl "5", none⟩).1 find_tools_5

/-- Counterexample to C9 as frozen: when the keyword line and its number are
split across a line break, the returned matched text `"1 bn"` comes from the
space-joined window and is not a substring of the original text. -/
theorem c9_matched_text_counterexample :
    find_number_in_text_tools (cl "net profit 1\nbn") none =
      some ⟨1000000000, cl "1 bn", cl "net profit 1 bn", some 0⟩ ∧
    containsSub (cl "net profit 1\nbn") (cl "1 bn") = false := by
  refine ⟨?_, by decide⟩
  apply find_tools_kw
  rw [show splitSep (cl "net profit 1\nbn") = [cl "net profit 1", cl "bn"] from by decide]
  have h2 : firstParseTools
      (reFindAllNums (joinSpace ((cl "net profit 1" :: [cl "bn"]).take 3))) =
      some (cl "1 bn", 1000000000) := by
    rw [show joinSpace ((cl "net profit 1" :: [cl "bn"]).take 3) = cl "net profit 1 bn"
        from by decide,
      show reFindAllNums (cl "net profit 1 bn") = [cl "1 bn"] from by decide]
    exact firstParseTools_cons_some _ _ _ norm_tools_1bn
  have h := toolsKwScan_hit toolsDefaultKeywords (cl "net profit 1") [cl "bn"] 0
    (cl "1 bn") 1000000000 (by decide) h2
  rw [show stripL (joinSpace ((cl "net profit 1" :: [cl "bn"]).take 3)) =
    cl "net profit 1 bn" from by decide] at h
  exact h

/-! ### The agents normalizer cannot raise: every regex capture is a valid
`Decimal` literal -/

end FAB
